import Mathlib

set_option linter.unusedSectionVars false

/-!
Verification of the fuzzy search subsystem of the SanteCI pharmacy web client.

The development shallowly embeds the core of the subsystem:

* `src/lib/fuzzy/highlight.ts` — `getHighlightSegments` and `mergeIndices`
  (the Highlight Resolver), modelled over `List Char` texts; JS
  `text.slice(a, b)` on natural-number offsets becomes `(t.drop a).take (b - a)`.
* `src/lib/fuzzy/use-fuzzy-search.ts` — the `useFuzzySearch` hook (Debounced
  Query Controller + Match Index memoisation + Fuzzy Search Façade), modelled
  as an explicit state machine over the hook's React state: the `useState`
  cells, the `timerRef`, the set of outstanding `setTimeout` timers, the
  `useEffect` dependency cell and the `useMemo` cell for the Fuse instance.
  JS numbers that carry relevance scores are modelled as `ℚ`; the third-party
  Fuse engine's `search` method is an uninterpreted parameter `searchFn`.
* `src/lib/fuzzy/fuse-config.ts` — the static option block and weight tables.
-/

namespace SanteCI

variable {T : Type}

/-! ## Highlight Resolver (`src/lib/fuzzy/highlight.ts`) -/

/-- One output segment of the Highlight Resolver: `{ text, highlighted }`. -/
structure HighlightSegment where
  text : List Char
  highlighted : Bool
deriving DecidableEq, Repr

/-- A Fuse match record as consumed by `getHighlightSegments`:
`{ key?, indices, value? }` from `src/lib/fuzzy/types.ts`. -/
structure FuseResultMatch where
  key : Option String
  indices : List (Nat × Nat)
  value : Option (List Char) := none
deriving DecidableEq, Repr

/-- JS `text.slice(a, b)` for natural offsets `a ≤ b` (clamped like JS). -/
def sliceList (t : List Char) (a b : Nat) : List Char :=
  (t.drop a).take (b - a)

/-- The inner loop of `mergeIndices`: `merged` grows left to right, and the
current last element of `merged` (here the accumulator `cur`) absorbs the next
sorted span when `start <= last[1] + 1`, updating `last[1] = max(last[1], end)`;
otherwise the last element is final and the next span starts a new run. -/
def mergeLoop : (Nat × Nat) → List (Nat × Nat) → List (Nat × Nat)
  | cur, [] => [cur]
  | cur, (s, e) :: rest =>
    if s ≤ cur.2 + 1 then mergeLoop (cur.1, max cur.2 e) rest
    else cur :: mergeLoop (s, e) rest

/-- The ordering used by the JS comparator `(a, b) => a[0] - b[0]`:
ascending start offsets. -/
def spanLE (a b : Nat × Nat) : Prop := a.1 ≤ b.1

instance : DecidableRel spanLE := fun a b => Nat.decLe a.1 b.1

instance : IsTotal (Nat × Nat) spanLE := ⟨fun a b => Nat.le_total a.1 b.1⟩

instance : IsTrans (Nat × Nat) spanLE := ⟨fun _ _ _ => Nat.le_trans⟩

/-- `mergeIndices` from `highlight.ts`: sort the spans by start offset
(`[...indices].sort((a, b) => a[0] - b[0])`, a stable ascending sort, here
insertion sort) and merge overlapping or touching runs. -/
def mergeIndices (indices : List (Nat × Nat)) : List (Nat × Nat) :=
  match indices.insertionSort spanLE with
  | [] => []
  | first :: rest => mergeLoop first rest

/-- The emission loop of `getHighlightSegments`: starting from `lastIndex`,
for each merged span `[start, end]` emit the non-highlighted gap
`text.slice(lastIndex, start)` when `start > lastIndex`, then the highlighted
`text.slice(start, end + 1)`, finally the non-highlighted tail
`text.slice(lastIndex)` when `lastIndex < text.length`. -/
def emitSegments (text : List Char) : Nat → List (Nat × Nat) → List HighlightSegment
  | lastIndex, [] =>
    if lastIndex < text.length then [⟨text.drop lastIndex, false⟩] else []
  | lastIndex, (s, e) :: rest =>
    (if lastIndex < s then [⟨sliceList text lastIndex s, false⟩] else []) ++
      ⟨sliceList text s (e + 1), true⟩ :: emitSegments text (e + 1) rest

/-- `getHighlightSegments(text, matches, key)` from `highlight.ts`.
`!matches?.length || !text` yields the single non-highlighted segment; so does
an absent field match (`matches.find(m => m.key === key)`) or one with no
indices; otherwise the merged spans are emitted left to right. -/
def getHighlightSegments (text : List Char)
    (ms : Option (List FuseResultMatch)) (key : String) : List HighlightSegment :=
  if ms.getD [] = [] ∨ text = [] then [⟨text, false⟩]
  else
    match (ms.getD []).find? (fun m => m.key == some key) with
    | none => [⟨text, false⟩]
    | some fieldMatch =>
      if fieldMatch.indices = [] then [⟨text, false⟩]
      else emitSegments text 0 (mergeIndices fieldMatch.indices)

/-! ## Fuse configuration (`src/lib/fuzzy/fuse-config.ts`) -/

/-- The option object handed to the Fuse constructor: `BASE_FUSE_OPTIONS`
spread together with the per-call `keys` and `threshold`.  Weights and the
threshold are JS numbers, modelled as `ℚ`. -/
structure FuseOptions where
  includeScore : Bool
  includeMatches : Bool
  ignoreDiacritics : Bool
  ignoreLocation : Bool
  minMatchCharLength : Nat
  shouldSort : Bool
  keys : List (String × ℚ)
  threshold : ℚ
deriving DecidableEq, Repr

/-- `{...BASE_FUSE_OPTIONS, keys, threshold}` from `use-fuzzy-search.ts`. -/
def baseFuseOptions (keys : List (String × ℚ)) (threshold : ℚ) : FuseOptions :=
  { includeScore := true, includeMatches := true, ignoreDiacritics := true,
    ignoreLocation := true, minMatchCharLength := 2, shouldSort := true,
    keys := keys, threshold := threshold }

/-- A constructed Fuse instance (`new Fuse(items, {...})`).  The constructor
call in `use-fuzzy-search.ts` has no validation and no error path: it simply
packages the record list with its options. -/
structure FuseInst (T : Type) where
  items : List T
  options : FuseOptions
deriving DecidableEq

/-- `new Fuse(items, { ...BASE_FUSE_OPTIONS, keys, threshold })`. -/
def mkFuse (items : List T) (keys : List (String × ℚ)) (threshold : ℚ) : FuseInst T :=
  ⟨items, baseFuseOptions keys threshold⟩

/-- `pharmacySearchKeys` from `fuse-config.ts`. -/
def pharmacySearchKeys : List (String × ℚ) :=
  [("name", 4/10), ("section", 2/10), ("area", 15/100), ("city", 15/100),
   ("address", 1/10)]

/-- `medicamentSearchKeys` from `fuse-config.ts`. -/
def medicamentSearchKeys : List (String × ℚ) :=
  [("nom_commercial", 5/10), ("groupe_therapeutique", 35/100), ("code", 15/100)]

/-- `THRESHOLDS` from `fuse-config.ts`: `pharmacy` entry. -/
def THRESHOLDS_pharmacy : ℚ := 35/100

/-- `THRESHOLDS` from `fuse-config.ts`: `medication` entry. -/
def THRESHOLDS_medication : ℚ := 3/10

/-! ## Fuzzy Search Façade: result shaping (`use-fuzzy-search.ts`, lines 51-72) -/

/-- JS `String.prototype.trim()`: drop leading and trailing whitespace.
Modelled directly over the character list (Lean's own `String.trim` is
byte-position based and does not reduce in the kernel). -/
def jsTrim (s : String) : String :=
  ⟨((s.data.dropWhile Char.isWhitespace).reverse.dropWhile Char.isWhitespace).reverse⟩

/-- One raw entry of `fuse.search(q)`: `{ item, score?, matches? }`.  The Fuse
engine itself is third-party; its output shape is all the façade consumes. -/
structure FuseRawResult (T : Type) where
  item : T
  score : Option ℚ
  /-- Source field `matches` (`matches` is reserved in Lean). -/
  matchList : Option (List FuseResultMatch)

/-- A `FuzzyResult<T>` from `src/lib/fuzzy/types.ts`:
`{ item, score, matches?, isFuzzy }`. -/
structure FuzzyResult (T : Type) where
  item : T
  score : ℚ
  /-- Source field `matches` (`matches` is reserved in Lean). -/
  matchList : Option (List FuseResultMatch) := none
  isFuzzy : Bool

/-- The fixed near-exact cutoff `0.05` in `isFuzzy: (r.score ?? 1) > 0.05`. -/
def FUZZY_CUTOFF : ℚ := 5/100

/-- The body of the `fuzzyResults` memo in `useFuzzySearch`: trim the committed
query; if it is empty or shorter than `minChars`, wrap `items` as zero-score,
non-fuzzy results without touching the index; otherwise run `fuse.search(q)`
(the uninterpreted `searchFn`) and shape each raw result. -/
def fuzzyResultsOf (searchFn : FuseInst T → String → List (FuseRawResult T))
    (fuse : FuseInst T) (debouncedQuery : String) (items : List T)
    (minChars : Nat) : List (FuzzyResult T) :=
  let q := jsTrim debouncedQuery
  if q = "" then
    items.map (fun item => { item := item, score := 0, matchList := none, isFuzzy := false })
  else if q.length < minChars then
    items.map (fun item => { item := item, score := 0, matchList := none, isFuzzy := false })
  else
    (searchFn fuse q).map (fun r =>
      { item := r.item, score := r.score.getD 1, matchList := r.matchList,
        isFuzzy := decide (FUZZY_CUTOFF < r.score.getD 1) })

/-- `results = fuzzyResults.map(r => r.item)`. -/
def resultsOf (searchFn : FuseInst T → String → List (FuseRawResult T))
    (fuse : FuseInst T) (debouncedQuery : String) (items : List T)
    (minChars : Nat) : List T :=
  (fuzzyResultsOf searchFn fuse debouncedQuery items minChars).map (·.item)

/-- The text actually handed to `fuse.search`, if any: `none` on the two
bypass branches of `fuzzyResults`, `some` of the trimmed committed query on
the search branch. -/
def searchTextOf (debouncedQuery : String) (minChars : Nat) : Option String :=
  let q := jsTrim debouncedQuery
  if q = "" then none
  else if q.length < minChars then none
  else some q

/-- `isFuzzyMode` from `useFuzzySearch`:
`debouncedQuery.trim().length >= minChars && fuzzyResults.length > 0 &&
fuzzyResults.some(r => r.isFuzzy)`. -/
def isFuzzyModeOf (debouncedQuery : String) (minChars : Nat)
    (fuzzyResults : List (FuzzyResult T)) : Bool :=
  decide (minChars ≤ (jsTrim debouncedQuery).length) &&
    decide (0 < fuzzyResults.length) && fuzzyResults.any (·.isFuzzy)

/-! ## Hook state machine (`use-fuzzy-search.ts`, lines 6-49)

The React hook is re-expressed as an explicit state machine.  A `render`
transition models one render of the consuming component with the current
props, followed by React running the `useMemo` for the Fuse instance and the
debounce `useEffect` (previous cleanup first, then the effect body, both only
when the effect dependencies `[query, debounceMs, minChars]` changed).  A
`fire` transition models one scheduled `setTimeout` callback running.
`pending` is the pool of outstanding browser timers (id, payload); browser
timer ids are positive, so fresh ids start at 1 and the JS truthiness test
`if (timerRef.current)` is modelled as the id being nonzero. -/

/-- The props of `useFuzzySearch` with the option defaults already resolved
(`threshold = 0.35`, `debounceMs = 200`, `minChars = 2` unless overridden). -/
structure SearchProps (T : Type) where
  items : List T
  query : String
  keys : List (String × ℚ)
  threshold : ℚ
  debounceMs : Nat
  minChars : Nat

/-- Default `threshold` option of `useFuzzySearch`. -/
def defaultThreshold : ℚ := 35/100

/-- Default `debounceMs` option of `useFuzzySearch`. -/
def defaultDebounceMs : Nat := 200

/-- Default `minChars` option of `useFuzzySearch`. -/
def defaultMinChars : Nat := 2

/-- The persistent state of one `useFuzzySearch` hook instance. -/
structure HookState (T : Type) where
  /-- `useState(query)`: the committed (debounced) query. -/
  debouncedQuery : String
  /-- `useState(false)`: the debouncing flag. -/
  isSearching : Bool
  /-- `timerRef.current`. -/
  timerRef : Option Nat
  /-- Outstanding `setTimeout` timers: id and the `q` their callback commits. -/
  pending : List (Nat × String)
  /-- Fresh-timer-id source. -/
  nextId : Nat
  /-- The deps `[query, debounceMs, minChars]` of the last effect run. -/
  effectDeps : Option (String × Nat × Nat)
  /-- Whether the last effect run registered a cleanup (it does not when it
  early-returns on a sub-`minChars` query). -/
  hasCleanup : Bool
  /-- The deps `[items, keys, threshold]` of the fuse `useMemo`. -/
  fuseDeps : Option (List T × List (String × ℚ) × ℚ)
  /-- The memoised Fuse instance. -/
  fuseVal : Option (FuseInst T)
  /-- How many times the Fuse constructor has run (the injected build counter
  of spec property P4). -/
  buildCount : Nat

/-- The effect cleanup: `if (timerRef.current) clearTimeout(timerRef.current)`. -/
def runCleanup (st : HookState T) : HookState T :=
  match st.timerRef with
  | some id =>
    if id ≠ 0 then { st with pending := st.pending.filter (fun e => decide (e.1 ≠ id)) }
    else st
  | none => st

/-- The effect body: trim the query; a non-empty sub-`minChars` query returns
early (registering no cleanup); otherwise set `isSearching`, schedule the
commit of `q` after `debounceMs`, and remember the timer in `timerRef`. -/
def runEffectBody (p : SearchProps T) (st : HookState T) : HookState T :=
  let q := jsTrim p.query
  if 0 < q.length ∧ q.length < p.minChars then { st with hasCleanup := false }
  else
    { st with isSearching := true,
              pending := st.pending ++ [(st.nextId, q)],
              timerRef := some st.nextId,
              nextId := st.nextId + 1,
              hasCleanup := true }

/-- One pass of the debounce `useEffect`: skipped when the deps
`[query, debounceMs, minChars]` are unchanged; otherwise the previous cleanup
(if registered) runs, then the body. -/
def runEffect [DecidableEq T] (p : SearchProps T) (st : HookState T) : HookState T :=
  let deps := (p.query, p.debounceMs, p.minChars)
  if st.effectDeps = some deps then st
  else
    runEffectBody p
      { (if st.hasCleanup then runCleanup st else st) with effectDeps := some deps }

/-- The `fuse` `useMemo`: rebuild `new Fuse(items, {...BASE_FUSE_OPTIONS, keys,
threshold})` only when the deps `[items, keys, threshold]` changed (dep
identity is modelled as value equality). -/
def updateFuse [DecidableEq T] (p : SearchProps T) (st : HookState T) : HookState T :=
  let deps := (p.items, p.keys, p.threshold)
  if st.fuseDeps = some deps then st
  else
    { st with fuseDeps := some deps,
              fuseVal := some (mkFuse p.items p.keys p.threshold),
              buildCount := st.buildCount + 1 }

/-- One render with props `p`: memo update, then the effect pass. -/
def render [DecidableEq T] (p : SearchProps T) (st : HookState T) : HookState T :=
  runEffect p (updateFuse p st)

/-- The state created at mount time, before the first render completes:
`useState(query)` seeds the committed query with the raw `query` argument
exactly as passed; nothing is scheduled and no memo exists yet. -/
def initState (p : SearchProps T) : HookState T :=
  { debouncedQuery := p.query, isSearching := false, timerRef := none,
    pending := [], nextId := 1, effectDeps := none, hasCleanup := false,
    fuseDeps := none, fuseVal := none, buildCount := 0 }

/-- Mounting the hook: the initial state followed by the first render
(whose effect always runs, since no deps were recorded yet). -/
def mount [DecidableEq T] (p : SearchProps T) : HookState T :=
  render p (initState p)

/-- A scheduled timeout with id `id` fires: its callback
`() => { setDebouncedQuery(q); setIsSearching(false); }` runs and the timer
leaves the outstanding pool.  Firing an id that is not outstanding is a no-op. -/
def fire (id : Nat) (st : HookState T) : HookState T :=
  match st.pending.find? (fun e => decide (e.1 = id)) with
  | some e =>
    { st with debouncedQuery := e.2, isSearching := false,
              pending := st.pending.filter (fun e2 => decide (e2.1 ≠ id)) }
  | none => st

/-- Successive renders with the same props except for the live `query`. -/
def renders [DecidableEq T] (p : SearchProps T) (qs : List String)
    (st : HookState T) : HookState T :=
  qs.foldl (fun s q => render { p with query := q } s) st

/-- The reachable states of one hook instance: mount once, then any
interleaving of renders (with arbitrary props) and timer firings. -/
inductive Reachable [DecidableEq T] : HookState T → Prop
  | mount (p : SearchProps T) : Reachable (mount p)
  | render (p : SearchProps T) {st : HookState T} :
      Reachable st → Reachable (render p st)
  | fire (id : Nat) {st : HookState T} : Reachable st → Reachable (fire id st)

/-- What `useFuzzySearch` returns to its caller on a render:
`{ results, fuzzyResults, isSearching, isFuzzyMode, debouncedQuery }`,
computed from the current state and props. -/
structure HookOutput (T : Type) where
  results : List T
  fuzzyResults : List (FuzzyResult T)
  isSearching : Bool
  isFuzzyMode : Bool
  debouncedQuery : String

/-- The hook's output as a function of its state and props (after the first
render `fuseVal` is always populated; the `none` fallback is never reached
from a rendered state). -/
def outputs (searchFn : FuseInst T → String → List (FuseRawResult T))
    (p : SearchProps T) (st : HookState T) : HookOutput T :=
  match st.fuseVal with
  | some fuse =>
    let fr := fuzzyResultsOf searchFn fuse st.debouncedQuery p.items p.minChars
    { results := fr.map (·.item), fuzzyResults := fr,
      isSearching := st.isSearching,
      isFuzzyMode := isFuzzyModeOf st.debouncedQuery p.minChars fr,
      debouncedQuery := st.debouncedQuery }
  | none =>
    { results := [], fuzzyResults := [], isSearching := st.isSearching,
      isFuzzyMode := false, debouncedQuery := st.debouncedQuery }

/-! ## Auxiliary predicates -/

/-- Well-separated span chains: starting from lower bound `i`, each span
`[s, e]` satisfies `i ≤ s ≤ e < len`, and the next span starts at least two
past `e` (merged spans never overlap and never touch, not even with a gap of
zero). -/
def SpanChain (len : Nat) : Nat → List (Nat × Nat) → Prop
  | _, [] => True
  | i, (s, e) :: rest => i ≤ s ∧ s ≤ e ∧ e < len ∧ SpanChain len (e + 2) rest

/-- Separation of adjacent output segments: a highlighted segment is never
followed by another highlighted segment, and the non-highlighted segment
after it is non-empty (so two highlighted runs are always at least one
character apart). -/
def SegSep (a b : HighlightSegment) : Prop :=
  a.highlighted = true → b.highlighted = false ∧ b.text ≠ []

/-- The timer-pool invariant of the hook state machine: at most one timer is
ever outstanding, ids are positive and fresh, the outstanding timer (if any)
is the one remembered in `timerRef`, its effect run registered a cleanup, and
the debouncing flag is raised while it is outstanding. -/
def Inv (st : HookState T) : Prop :=
  st.pending.length ≤ 1 ∧ 1 ≤ st.nextId ∧
    ∀ e ∈ st.pending,
      st.timerRef = some e.1 ∧ e.1 ≠ 0 ∧ st.hasCleanup = true ∧
        st.isSearching = true

/-! ## Concrete fixtures used by witnesses and counterexamples -/

/-- Props: empty record list, query `"ab"`, default `minChars = 2`. -/
def propsAB : SearchProps Nat :=
  { items := [], query := "ab", keys := [], threshold := 1,
    debounceMs := 200, minChars := 2 }

/-- The hook mounted with `propsAB`: one timer `(1, "ab")` is pending. -/
def stateAB : HookState Nat := mount propsAB

/-- `stateAB` after the user types `"e"` (trimmed length 1 < minChars):
the pending timer is cancelled and nothing replaces it. -/
def stateAfterE : HookState Nat := render { propsAB with query := "e" } stateAB

/-- Props whose raw query carries surrounding whitespace. -/
def propsPadded : SearchProps Nat :=
  { items := [], query := " ab ", keys := [], threshold := 1,
    debounceMs := 200, minChars := 2 }

/-- Props with an empty field-weight set and a non-positive threshold — the
configuration the spec calls fatal. -/
def propsBadConfig : SearchProps Nat :=
  { items := [], query := "", keys := [], threshold := 0,
    debounceMs := 200, minChars := 2 }

/-- A trivial search engine used to instantiate `searchFn` in witnesses. -/
def noSearch : FuseInst Nat → String → List (FuseRawResult Nat) := fun _ _ => []

/-! ## Highlight Resolver lemmas -/

lemma sliceList_append_drop (t : List Char) {a b : Nat} (hab : a ≤ b) :
    sliceList t a b ++ t.drop b = t.drop a := by
  have h2 : (t.drop a).drop (b - a) = t.drop b := by
    rw [List.drop_drop]; congr 1; omega
  rw [sliceList, ← h2, List.take_append_drop]

lemma spanChain_mono {len : Nat} :
    ∀ {l : List (Nat × Nat)} {i j : Nat}, j ≤ i → SpanChain len i l → SpanChain len j l
  | [], _, _, _, _ => trivial
  | (s, e) :: rest, i, j, hji, h => by
    obtain ⟨h1, h2, h3, h4⟩ := h
    exact ⟨le_trans hji h1, h2, h3, h4⟩

lemma mergeLoop_chain {len : Nat} (l : List (Nat × Nat)) :
    ∀ cur : Nat × Nat, cur.1 ≤ cur.2 → cur.2 < len →
      (∀ q ∈ l, q.1 ≤ q.2 ∧ q.2 < len) →
      List.Pairwise spanLE l →
      (∀ q ∈ l, cur.1 ≤ q.1) →
      SpanChain len cur.1 (mergeLoop cur l) := by
  induction l with
  | nil =>
    intro cur h1 h2 _ _ _
    exact ⟨le_refl _, h1, h2, trivial⟩
  | cons hd tl ih =>
    obtain ⟨s, e⟩ := hd
    intro cur h1 h2 hval hpw hge
    have hhd := hval (s, e) (List.mem_cons_self _ _)
    have htlval : ∀ q ∈ tl, q.1 ≤ q.2 ∧ q.2 < len :=
      fun q hq => hval q (List.mem_cons_of_mem _ hq)
    rw [List.pairwise_cons] at hpw
    rw [mergeLoop]
    split
    next hmerge =>
      apply ih (cur.1, max cur.2 e)
      · exact le_trans h1 (le_max_left _ _)
      · exact max_lt h2 hhd.2
      · exact htlval
      · exact hpw.2
      · intro q hq
        exact le_trans (hge (s, e) (List.mem_cons_self _ _)) (hpw.1 q hq)
    next hfar =>
      refine ⟨le_refl _, h1, h2, ?_⟩
      have hrest := ih (s, e) hhd.1 hhd.2 htlval hpw.2 hpw.1
      exact spanChain_mono (by omega) hrest

lemma mergeIndices_chain {len : Nat} (indices : List (Nat × Nat))
    (hval : ∀ q ∈ indices, q.1 ≤ q.2 ∧ q.2 < len) :
    SpanChain len 0 (mergeIndices indices) := by
  rw [mergeIndices]
  have hperm := List.perm_insertionSort spanLE indices
  have hsorted := List.sorted_insertionSort spanLE indices
  cases hs : indices.insertionSort spanLE with
  | nil => trivial
  | cons first rest =>
    rw [hs] at hperm hsorted
    have hval' : ∀ q ∈ first :: rest, q.1 ≤ q.2 ∧ q.2 < len :=
      fun q hq => hval q (hperm.subset hq)
    rw [List.sorted_cons] at hsorted
    apply spanChain_mono (Nat.zero_le _)
    exact mergeLoop_chain rest first
      (hval' first (List.mem_cons_self _ _)).1
      (hval' first (List.mem_cons_self _ _)).2
      (fun q hq => hval' q (List.mem_cons_of_mem _ hq))
      hsorted.2 hsorted.1

lemma emitSegments_flatten (text : List Char) :
    ∀ (spans : List (Nat × Nat)) (i : Nat),
      SpanChain text.length i spans → i ≤ text.length →
      ((emitSegments text i spans).map HighlightSegment.text).flatten = text.drop i := by
  intro spans
  induction spans with
  | nil =>
    intro i _ _
    rw [emitSegments]
    split
    next => simp
    next h => simp [List.drop_eq_nil_of_le (le_of_not_lt h)]
  | cons hd tl ih =>
    obtain ⟨s, e⟩ := hd
    intro i hch hle
    obtain ⟨his, hse, helen, hch'⟩ := hch
    have htl := ih (e + 1) (spanChain_mono (by omega) hch') (by omega)
    rw [emitSegments, List.map_append, List.flatten_append]
    have hmid : sliceList text s (e + 1) ++ text.drop (e + 1) = text.drop s :=
      sliceList_append_drop text (by omega)
    split
    next hlt =>
      simp only [List.map_cons, List.flatten_cons, List.map_nil, List.flatten_nil,
        List.append_nil, htl]
      rw [hmid]
      exact sliceList_append_drop text his
    next hnlt =>
      have : i = s := le_antisymm his (le_of_not_lt hnlt)
      subst this
      simp only [List.map_nil, List.flatten_nil, List.nil_append, List.map_cons,
        List.flatten_cons, htl]
      exact hmid

lemma emitSegments_head (text : List Char) :
    ∀ (spans : List (Nat × Nat)) (j : Nat) (seg : HighlightSegment),
      SpanChain text.length j spans →
      (spans = [] ∨ ∃ s e t2, spans = (s, e) :: t2 ∧ j < s) →
      (emitSegments text j spans).head? = some seg →
      seg.highlighted = false ∧ seg.text ≠ [] := by
  intro spans j seg hch hpos hhead
  cases spans with
  | nil =>
    rw [emitSegments] at hhead
    split at hhead
    next hj =>
      simp only [List.head?_cons, Option.some.injEq] at hhead
      subst hhead
      refine ⟨rfl, ?_⟩
      simp only [ne_eq, List.drop_eq_nil_iff]
      omega
    next => simp at hhead
  | cons hd tl =>
    obtain ⟨s, e⟩ := hd
    obtain ⟨h1, h2, h3, _⟩ := hch
    have hjs : j < s := by
      rcases hpos with h | ⟨s', e', t', heq, hlt⟩
      · exact absurd h (List.cons_ne_nil _ _)
      · rw [List.cons.injEq, Prod.mk.injEq] at heq
        obtain ⟨⟨hs, _⟩, _⟩ := heq
        subst hs
        exact hlt
    rw [emitSegments, if_pos hjs, List.singleton_append, List.head?_cons,
      Option.some.injEq] at hhead
    subst hhead
    refine ⟨rfl, ?_⟩
    have hlen : 0 < (sliceList text j s).length := by
      rw [sliceList, List.length_take, List.length_drop]
      have : s < text.length := by omega
      simp only [lt_inf_iff]
      omega
    exact List.length_pos.mp hlen

lemma emitSegments_chain (text : List Char) :
    ∀ (spans : List (Nat × Nat)) (j : Nat),
      SpanChain text.length j spans →
      List.Chain' SegSep (emitSegments text j spans) := by
  intro spans
  induction spans with
  | nil =>
    intro j _
    rw [emitSegments]
    split
    · exact List.chain'_singleton _
    · exact List.chain'_nil
  | cons hd tl ih =>
    obtain ⟨s, e⟩ := hd
    intro j hch
    obtain ⟨h1, h2, h3, hch'⟩ := hch
    have hch1 : SpanChain text.length (e + 1) tl := spanChain_mono (by omega) hch'
    have hpos : tl = [] ∨ ∃ s' e' t2, tl = (s', e') :: t2 ∧ e + 1 < s' := by
      cases tl with
      | nil => exact Or.inl rfl
      | cons hd2 t2 =>
        obtain ⟨s', e'⟩ := hd2
        obtain ⟨hs', _, _, _⟩ := hch'
        exact Or.inr ⟨s', e', t2, rfl, by omega⟩
    have hmain : List.Chain' SegSep
        (⟨sliceList text s (e + 1), true⟩ :: emitSegments text (e + 1) tl) := by
      rw [List.chain'_cons']
      refine ⟨?_, ih (e + 1) hch1⟩
      intro y hy _
      exact emitSegments_head text tl (e + 1) y hch1 hpos hy
    rw [emitSegments]
    split
    next hlt =>
      rw [List.singleton_append, List.chain'_cons]
      refine ⟨?_, hmain⟩
      intro hfalse
      simp at hfalse
    next => simpa using hmain

/-! ## Claim theorems for the Highlight Resolver -/

/-- C2: for every input text and every valid span set (each span `[start, end]`
with `0 ≤ start ≤ end < text.length`), concatenating, in emission order, the
`text` fields of all segments returned by `getHighlightSegments` yields exactly
the original input text, with no gaps and no overlaps. -/
theorem highlight_roundtrip (text : List Char) (ms : Option (List FuseResultMatch))
    (key : String)
    (hval : ∀ m ∈ ms.getD [], ∀ sp ∈ m.indices, sp.1 ≤ sp.2 ∧ sp.2 < text.length) :
    ((getHighlightSegments text ms key).map HighlightSegment.text).flatten = text := by
  rw [getHighlightSegments]
  split
  next => simp
  next =>
    split
    next => simp
    next fieldMatch hfind =>
      split
      next => simp
      next =>
        have hfm : fieldMatch ∈ ms.getD [] := List.mem_of_find?_eq_some hfind
        have hchain := mergeIndices_chain fieldMatch.indices (hval fieldMatch hfm)
        have h := emitSegments_flatten text (mergeIndices fieldMatch.indices) 0
          hchain (Nat.zero_le _)
        simpa using h

/-- Witness for C2 at a concrete text and span set. -/
theorem highlight_roundtrip_witness :
    ((getHighlightSegments "abcdef".data
        (some [{ key := some "k", indices := [(1, 2), (4, 4)] }]) "k").map
      HighlightSegment.text).flatten = "abcdef".data :=
  highlight_roundtrip "abcdef".data
    (some [{ key := some "k", indices := [(1, 2), (4, 4)] }]) "k" (by decide)

/-- C7 counterexample: the spans `(0,2)` and `(4,5)` for the same field are
separated by a gap of exactly one character (index 3), yet `mergeIndices`
does NOT merge them (its condition is `start <= last[1] + 1`, i.e. only
overlapping or touching runs merge), and the emitted output contains two
distinct highlighted segments `"abc"` and `"ef"` separated by the single
non-highlighted character `"d"` — refuting the claim that spans with a gap
of at most 1 character are merged and that no two highlighted segments are
separated by a gap of 1 character or less. -/
theorem highlight_gap_one_unmerged :
    mergeIndices [(0, 2), (4, 5)] = [(0, 2), (4, 5)] ∧
    getHighlightSegments "abcdef".data
        (some [{ key := some "k", indices := [(0, 2), (4, 5)] }]) "k" =
      [⟨"abc".data, true⟩, ⟨"d".data, false⟩, ⟨"ef".data, true⟩] :=
  ⟨by decide, by decide⟩

/-- C7 amended: spans that overlap or touch (next start ≤ previous end + 1)
are merged before emission, so in the output no highlighted segment is
immediately followed by another highlighted segment, and the non-highlighted
segment following a highlighted one is never empty — distinct highlighted
runs are always separated by at least one character (a separating gap of
exactly one character can remain). -/
theorem highlight_no_adjacent_highlights (text : List Char)
    (ms : Option (List FuseResultMatch)) (key : String)
    (hval : ∀ m ∈ ms.getD [], ∀ sp ∈ m.indices, sp.1 ≤ sp.2 ∧ sp.2 < text.length) :
    List.Chain' SegSep (getHighlightSegments text ms key) := by
  rw [getHighlightSegments]
  split
  next => exact List.chain'_singleton _
  next =>
    split
    next => exact List.chain'_singleton _
    next fieldMatch hfind =>
      split
      next => exact List.chain'_singleton _
      next =>
        have hfm : fieldMatch ∈ ms.getD [] := List.mem_of_find?_eq_some hfind
        exact emitSegments_chain text (mergeIndices fieldMatch.indices) 0
          (mergeIndices_chain fieldMatch.indices (hval fieldMatch hfm))

/-- Witness for the amended C7 at a concrete text and span set. -/
theorem highlight_no_adjacent_highlights_witness :
    List.Chain' SegSep (getHighlightSegments "abcdef".data
      (some [{ key := some "k", indices := [(0, 2), (4, 5)] }]) "k") :=
  highlight_no_adjacent_highlights "abcdef".data
    (some [{ key := some "k", indices := [(0, 2), (4, 5)] }]) "k" (by decide)

/-! ## Hook state machine lemmas -/

variable [DecidableEq T]

@[simp] lemma updateFuse_pending (p : SearchProps T) (st : HookState T) :
    (updateFuse p st).pending = st.pending := by
  simp only [updateFuse]; split <;> rfl

@[simp] lemma updateFuse_debouncedQuery (p : SearchProps T) (st : HookState T) :
    (updateFuse p st).debouncedQuery = st.debouncedQuery := by
  simp only [updateFuse]; split <;> rfl

@[simp] lemma updateFuse_isSearching (p : SearchProps T) (st : HookState T) :
    (updateFuse p st).isSearching = st.isSearching := by
  simp only [updateFuse]; split <;> rfl

@[simp] lemma updateFuse_nextId (p : SearchProps T) (st : HookState T) :
    (updateFuse p st).nextId = st.nextId := by
  simp only [updateFuse]; split <;> rfl

@[simp] lemma updateFuse_effectDeps (p : SearchProps T) (st : HookState T) :
    (updateFuse p st).effectDeps = st.effectDeps := by
  simp only [updateFuse]; split <;> rfl

@[simp] lemma updateFuse_hasCleanup (p : SearchProps T) (st : HookState T) :
    (updateFuse p st).hasCleanup = st.hasCleanup := by
  simp only [updateFuse]; split <;> rfl

@[simp] lemma updateFuse_timerRef (p : SearchProps T) (st : HookState T) :
    (updateFuse p st).timerRef = st.timerRef := by
  simp only [updateFuse]; split <;> rfl

@[simp] lemma runCleanup_debouncedQuery (st : HookState T) :
    (runCleanup st).debouncedQuery = st.debouncedQuery := by
  unfold runCleanup; split <;> (try split) <;> rfl

@[simp] lemma runCleanup_isSearching (st : HookState T) :
    (runCleanup st).isSearching = st.isSearching := by
  unfold runCleanup; split <;> (try split) <;> rfl

@[simp] lemma runCleanup_nextId (st : HookState T) :
    (runCleanup st).nextId = st.nextId := by
  unfold runCleanup; split <;> (try split) <;> rfl

@[simp] lemma runCleanup_effectDeps (st : HookState T) :
    (runCleanup st).effectDeps = st.effectDeps := by
  unfold runCleanup; split <;> (try split) <;> rfl

@[simp] lemma runCleanup_hasCleanup (st : HookState T) :
    (runCleanup st).hasCleanup = st.hasCleanup := by
  unfold runCleanup; split <;> (try split) <;> rfl

@[simp] lemma runCleanup_timerRef (st : HookState T) :
    (runCleanup st).timerRef = st.timerRef := by
  unfold runCleanup; split <;> (try split) <;> rfl

@[simp] lemma runCleanup_fuseDeps (st : HookState T) :
    (runCleanup st).fuseDeps = st.fuseDeps := by
  unfold runCleanup; split <;> (try split) <;> rfl

@[simp] lemma runCleanup_fuseVal (st : HookState T) :
    (runCleanup st).fuseVal = st.fuseVal := by
  unfold runCleanup; split <;> (try split) <;> rfl

@[simp] lemma runCleanup_buildCount (st : HookState T) :
    (runCleanup st).buildCount = st.buildCount := by
  unfold runCleanup; split <;> (try split) <;> rfl

@[simp] lemma runEffectBody_debouncedQuery (p : SearchProps T) (st : HookState T) :
    (runEffectBody p st).debouncedQuery = st.debouncedQuery := by
  simp only [runEffectBody]; split <;> rfl

@[simp] lemma runEffectBody_fuseDeps (p : SearchProps T) (st : HookState T) :
    (runEffectBody p st).fuseDeps = st.fuseDeps := by
  simp only [runEffectBody]; split <;> rfl

@[simp] lemma runEffectBody_fuseVal (p : SearchProps T) (st : HookState T) :
    (runEffectBody p st).fuseVal = st.fuseVal := by
  simp only [runEffectBody]; split <;> rfl

@[simp] lemma runEffectBody_buildCount (p : SearchProps T) (st : HookState T) :
    (runEffectBody p st).buildCount = st.buildCount := by
  simp only [runEffectBody]; split <;> rfl

@[simp] lemma runEffectBody_effectDeps (p : SearchProps T) (st : HookState T) :
    (runEffectBody p st).effectDeps = st.effectDeps := by
  simp only [runEffectBody]; split <;> rfl

@[simp] lemma runEffect_debouncedQuery (p : SearchProps T) (st : HookState T) :
    (runEffect p st).debouncedQuery = st.debouncedQuery := by
  simp only [runEffect]; split
  · rfl
  · simp only [runEffectBody_debouncedQuery]; split <;> simp

@[simp] lemma runEffect_fuseDeps (p : SearchProps T) (st : HookState T) :
    (runEffect p st).fuseDeps = st.fuseDeps := by
  simp only [runEffect]; split
  · rfl
  · simp only [runEffectBody_fuseDeps]; split <;> simp

@[simp] lemma runEffect_fuseVal (p : SearchProps T) (st : HookState T) :
    (runEffect p st).fuseVal = st.fuseVal := by
  simp only [runEffect]; split
  · rfl
  · simp only [runEffectBody_fuseVal]; split <;> simp

@[simp] lemma runEffect_buildCount (p : SearchProps T) (st : HookState T) :
    (runEffect p st).buildCount = st.buildCount := by
  simp only [runEffect]; split
  · rfl
  · simp only [runEffectBody_buildCount]; split <;> simp

/-- A render never changes the committed query: only a timer firing does. -/
@[simp] lemma render_debouncedQuery (p : SearchProps T) (st : HookState T) :
    (render p st).debouncedQuery = st.debouncedQuery := by
  simp [render]

/-- After any render the effect-deps cell holds the current deps
(either the effect just ran, or it was skipped because they already match). -/
lemma render_effectDeps (p : SearchProps T) (st : HookState T) :
    (render p st).effectDeps = some (p.query, p.debounceMs, p.minChars) := by
  rw [render, runEffect]
  split
  next h => exact h
  next => simp

/-- After any render the fuse-memo deps cell holds the current deps. -/
lemma render_fuseDeps (p : SearchProps T) (st : HookState T) :
    (render p st).fuseDeps = some (p.items, p.keys, p.threshold) := by
  rw [render, runEffect_fuseDeps]
  simp only [updateFuse]
  split
  next h => exact h
  next => rfl

/-- When the fuse-memo deps already match the current props the memo is
skipped: same instance, same build count. -/
lemma render_fuse_skip (p : SearchProps T) (st : HookState T)
    (h : st.fuseDeps = some (p.items, p.keys, p.threshold)) :
    (render p st).fuseVal = st.fuseVal ∧ (render p st).buildCount = st.buildCount := by
  rw [render, runEffect_fuseVal, runEffect_buildCount]
  simp only [updateFuse]
  split
  next => exact ⟨rfl, rfl⟩
  next hne => exact absurd h hne

@[simp] lemma cleanupStep_debouncedQuery (c : Prop) [Decidable c] (u : HookState T) :
    (if c then runCleanup u else u).debouncedQuery = u.debouncedQuery := by
  split <;> simp

@[simp] lemma cleanupStep_isSearching (c : Prop) [Decidable c] (u : HookState T) :
    (if c then runCleanup u else u).isSearching = u.isSearching := by
  split <;> simp

@[simp] lemma cleanupStep_nextId (c : Prop) [Decidable c] (u : HookState T) :
    (if c then runCleanup u else u).nextId = u.nextId := by
  split <;> simp

@[simp] lemma cleanupStep_timerRef (c : Prop) [Decidable c] (u : HookState T) :
    (if c then runCleanup u else u).timerRef = u.timerRef := by
  split <;> simp

lemma eq_singleton_of_length_le_one {A : Type} {l : List A} {e : A}
    (h1 : l.length ≤ 1) (h2 : e ∈ l) : l = [e] := by
  cases l with
  | nil => cases h2
  | cons a t =>
    cases t with
    | nil =>
      cases h2 with
      | head => rfl
      | tail _ h => cases h
    | cons b t2 => simp at h1

/-- Under the invariant, running the registered cleanup (if any) leaves no
outstanding timer: the cleanup clears exactly the remembered timer. -/
lemma effectCleanup_pending (st : HookState T) (hInv : Inv st) :
    (if st.hasCleanup then runCleanup st else st).pending = [] := by
  obtain ⟨hlen, _, hall⟩ := hInv
  cases hp : st.pending with
  | nil =>
    split
    · rw [runCleanup]
      split <;> (try split) <;> simp [hp]
    · exact hp
  | cons e rest =>
    have he := hall e (by rw [hp]; exact List.mem_cons_self _ _)
    have hrest : st.pending = [e] :=
      eq_singleton_of_length_le_one hlen (by rw [hp]; exact List.mem_cons_self _ _)
    rw [if_pos he.2.2.1]
    simp only [runCleanup, he.1]
    rw [if_pos he.2.1]
    simp [hrest]

lemma updateFuse_inv (p : SearchProps T) (st : HookState T) (h : Inv st) :
    Inv (updateFuse p st) := by
  obtain ⟨h1, h2, h3⟩ := h
  refine ⟨by simpa using h1, by simpa using h2, ?_⟩
  intro e he
  rw [updateFuse_pending] at he
  simpa using h3 e he

lemma runEffect_inv (p : SearchProps T) (st : HookState T) (hInv : Inv st) :
    Inv (runEffect p st) := by
  rw [runEffect]
  split
  · exact hInv
  · have hpend := effectCleanup_pending st hInv
    obtain ⟨hlen, hnext, hall⟩ := hInv
    simp only [runEffectBody]
    split
    next =>
      exact ⟨by simp [hpend], by simpa using hnext, by intro e he; simp [hpend] at he⟩
    next =>
      refine ⟨by simp [hpend], by simp [hnext], ?_⟩
      intro e he
      simp only [hpend, List.nil_append, List.mem_singleton] at he
      subst he
      refine ⟨by simp, ?_, rfl, rfl⟩
      simp only [cleanupStep_nextId]
      omega

lemma render_inv (p : SearchProps T) (st : HookState T) (hInv : Inv st) :
    Inv (render p st) :=
  runEffect_inv p _ (updateFuse_inv p st hInv)

lemma initState_inv (p : SearchProps T) : Inv (initState p) := by
  refine ⟨?_, ?_, ?_⟩ <;> simp [initState, Inv]

lemma fire_inv (id : Nat) (st : HookState T) (hInv : Inv st) : Inv (fire id st) := by
  rw [fire]
  split
  next e heq =>
    obtain ⟨hlen, hnext, hall⟩ := hInv
    have hmem : e ∈ st.pending := List.mem_of_find?_eq_some heq
    have hsing : st.pending = [e] := eq_singleton_of_length_le_one hlen hmem
    have hid : e.1 = id := by simpa using List.find?_some heq
    refine ⟨?_, hnext, ?_⟩
    · rw [hsing]
      simp [hid]
    · intro e2 he2
      rw [hsing] at he2
      simp [hid] at he2
  next => exact hInv

/-- Every reachable hook state satisfies the timer-pool invariant. -/
lemma reachable_inv {st : HookState T} (h : Reachable st) : Inv st := by
  induction h with
  | mount p => exact render_inv p _ (initState_inv p)
  | render p _ ih => exact render_inv p _ ih
  | fire id _ ih => exact fire_inv id _ ih

/-- A render whose effect deps are unchanged leaves the whole controller
state (everything except the fuse memo) untouched. -/
lemma render_unchanged (p : SearchProps T) (st : HookState T)
    (heq : st.effectDeps = some (p.query, p.debounceMs, p.minChars)) :
    (render p st).pending = st.pending ∧
    (render p st).debouncedQuery = st.debouncedQuery ∧
    (render p st).isSearching = st.isSearching ∧
    (render p st).nextId = st.nextId ∧
    (render p st).effectDeps = st.effectDeps ∧
    (render p st).hasCleanup = st.hasCleanup ∧
    (render p st).timerRef = st.timerRef := by
  rw [render, runEffect]
  have hc : (updateFuse p st).effectDeps = some (p.query, p.debounceMs, p.minChars) := by
    rw [updateFuse_effectDeps]; exact heq
  rw [if_pos hc]
  exact ⟨by simp, by simp, by simp, by simp, by simp, by simp, by simp⟩

/-- A render with changed effect deps and a committable query (trimmed empty,
or at least `minChars` long): the old timer (if any) is cancelled and exactly
one fresh timer carrying the trimmed query is scheduled; the committed query
is untouched and the debouncing flag is raised. -/
lemma render_changed_eligible (p : SearchProps T) (st : HookState T) (hInv : Inv st)
    (hne : st.effectDeps ≠ some (p.query, p.debounceMs, p.minChars))
    (helig : ¬(0 < (jsTrim p.query).length ∧ (jsTrim p.query).length < p.minChars)) :
    (render p st).pending = [(st.nextId, jsTrim p.query)] ∧
    (render p st).debouncedQuery = st.debouncedQuery ∧
    (render p st).isSearching = true ∧
    (render p st).nextId = st.nextId + 1 ∧
    (render p st).timerRef = some st.nextId ∧
    (render p st).hasCleanup = true := by
  have hInv2 := updateFuse_inv p st hInv
  have hpend := effectCleanup_pending _ hInv2
  rw [updateFuse_hasCleanup] at hpend
  rw [render, runEffect]
  have hc : ¬((updateFuse p st).effectDeps = some (p.query, p.debounceMs, p.minChars)) := by
    rw [updateFuse_effectDeps]; exact hne
  rw [if_neg hc]
  simp only [runEffectBody]
  rw [if_neg helig]
  refine ⟨?_, ?_, ?_, ?_, ?_, ?_⟩ <;> simp [hpend]

/-- A render with changed effect deps and a non-empty sub-`minChars` query:
the old timer (if any) is cancelled via the previous cleanup, the effect body
returns early, so no timer is started and the committed query and debouncing
flag keep their previous values. -/
lemma render_changed_submin (p : SearchProps T) (st : HookState T) (hInv : Inv st)
    (hne : st.effectDeps ≠ some (p.query, p.debounceMs, p.minChars))
    (hsub : 0 < (jsTrim p.query).length ∧ (jsTrim p.query).length < p.minChars) :
    (render p st).pending = [] ∧
    (render p st).debouncedQuery = st.debouncedQuery ∧
    (render p st).isSearching = st.isSearching ∧
    (render p st).nextId = st.nextId ∧
    (render p st).hasCleanup = false := by
  have hInv2 := updateFuse_inv p st hInv
  have hpend := effectCleanup_pending _ hInv2
  rw [updateFuse_hasCleanup] at hpend
  rw [render, runEffect]
  have hc : ¬((updateFuse p st).effectDeps = some (p.query, p.debounceMs, p.minChars)) := by
    rw [updateFuse_effectDeps]; exact hne
  rw [if_neg hc]
  simp only [runEffectBody]
  rw [if_pos hsub]
  refine ⟨?_, ?_, ?_, ?_, ?_⟩ <;> simp [hpend]

/-! ## C1: Match Index rebuild discipline -/

/-- After a render with props agreeing with the memo deps, the fuse memo is
stable across any further sequence of query-only changes. -/
lemma renders_fuse_stable (p : SearchProps T) (qs : List String) :
    ∀ st : HookState T, st.fuseDeps = some (p.items, p.keys, p.threshold) →
      (renders p qs st).fuseVal = st.fuseVal ∧
      (renders p qs st).buildCount = st.buildCount ∧
      (renders p qs st).fuseDeps = st.fuseDeps := by
  induction qs with
  | nil => intro st _; exact ⟨rfl, rfl, rfl⟩
  | cons q qs ih =>
    intro st hdeps
    have hstep := render_fuse_skip { p with query := q } st hdeps
    have hdeps2 : (render { p with query := q } st).fuseDeps =
        some (p.items, p.keys, p.threshold) := render_fuseDeps _ st
    have := ih (render { p with query := q } st) hdeps2
    refine ⟨?_, ?_, ?_⟩
    · rw [renders, List.foldl_cons]
      rw [show (qs.foldl (fun s q => render { p with query := q } s)
          (render { p with query := q } st)) =
          renders p qs (render { p with query := q } st) from rfl]
      rw [this.1, hstep.1]
    · rw [renders, List.foldl_cons]
      rw [show (qs.foldl (fun s q => render { p with query := q } s)
          (render { p with query := q } st)) =
          renders p qs (render { p with query := q } st) from rfl]
      rw [this.2.1, hstep.2]
    · rw [renders, List.foldl_cons]
      rw [show (qs.foldl (fun s q => render { p with query := q } s)
          (render { p with query := q } st)) =
          renders p qs (render { p with query := q } st) from rfl]
      rw [this.2.2, hdeps2, hdeps]

/-- C1: for a fixed record list, key set and threshold, the Fuse instance is
constructed only when `items`, `keys` or `threshold` change: after any render
with props `p`, re-rendering with any sequence of different `query` values
(all other props unchanged) never reconstructs the index — the memoised
instance and the build counter are unchanged, because `query` is not among
the fuse memo dependencies. -/
theorem fuse_rebuild_skip (p : SearchProps T) (st : HookState T) (qs : List String) :
    (renders p qs (render p st)).fuseVal = (render p st).fuseVal ∧
    (renders p qs (render p st)).buildCount = (render p st).buildCount := by
  have h := renders_fuse_stable p qs (render p st) (render_fuseDeps p st)
  exact ⟨h.1, h.2.1⟩

/-! ## C6: debounce coalescing -/

lemma fire_pending_singleton (st : HookState T) (id : Nat) (q : String)
    (h : st.pending = [(id, q)]) :
    (fire id st).debouncedQuery = q ∧ (fire id st).isSearching = false ∧
      (fire id st).pending = [] := by
  rw [fire]
  split
  next e heq =>
    rw [h] at heq
    simp [List.find?] at heq
    subst heq
    refine ⟨rfl, rfl, ?_⟩
    show st.pending.filter _ = []
    rw [h]
    simp
  next hnone =>
    rw [h] at hnone
    simp [List.find?] at hnone

lemma renders_inv (p : SearchProps T) (l : List String) :
    ∀ st : HookState T, Inv st → Inv (renders p l st) := by
  induction l with
  | nil => intro st h; exact h
  | cons q l ih =>
    intro st h
    rw [renders, List.foldl_cons]
    exact ih (render { p with query := q } st) (render_inv _ _ h)

@[simp] lemma renders_nil (p : SearchProps T) (st : HookState T) :
    renders p [] st = st := rfl

lemma renders_cons (p : SearchProps T) (q : String) (l : List String)
    (st : HookState T) :
    renders p (q :: l) st = renders p l (render { p with query := q } st) := by
  rw [renders, renders, List.foldl_cons]

/-- The core of debounce coalescing: from any invariant-satisfying state whose
last effect deps carried query `q0`, a run of value-changing renders ending in
a committable query leaves the committed query untouched and exactly one
fresh timer pending, carrying the trimmed last query. -/
lemma renders_coalesce (p : SearchProps T) :
    ∀ (qs : List String) (qn q0 : String) (st : HookState T),
      Inv st → st.effectDeps = some (q0, p.debounceMs, p.minChars) →
      List.Chain' (fun a b => a ≠ b) (q0 :: qs ++ [qn]) →
      ¬(0 < (jsTrim qn).length ∧ (jsTrim qn).length < p.minChars) →
      (renders p (qs ++ [qn]) st).debouncedQuery = st.debouncedQuery ∧
      ∃ id, (renders p (qs ++ [qn]) st).pending = [(id, jsTrim qn)] := by
  intro qs
  induction qs with
  | nil =>
    intro qn q0 st hInv hdeps hchain helig
    have hq0 : q0 ≠ qn := (List.chain'_cons.mp hchain).1
    have hne : st.effectDeps ≠
        some (qn, p.debounceMs, p.minChars) := by
      rw [hdeps]
      intro hcontra
      simp only [Option.some.injEq, Prod.mk.injEq] at hcontra
      exact hq0 hcontra.1
    have hstep := render_changed_eligible { p with query := qn } st hInv hne helig
    refine ⟨?_, st.nextId, ?_⟩
    · show (render { p with query := qn } st).debouncedQuery = st.debouncedQuery
      exact hstep.2.1
    · show (render { p with query := qn } st).pending = [(st.nextId, jsTrim qn)]
      exact hstep.1
  | cons q qs ih =>
    intro qn q0 st hInv hdeps hchain helig
    simp only [List.cons_append, List.chain'_cons] at hchain
    have hne : st.effectDeps ≠ some (q, p.debounceMs, p.minChars) := by
      rw [hdeps]
      intro hcontra
      simp only [Option.some.injEq, Prod.mk.injEq] at hcontra
      exact hchain.1 hcontra.1
    have hInv1 : Inv (render { p with query := q } st) := render_inv _ st hInv
    have hdeps1 : (render { p with query := q } st).effectDeps =
        some (q, p.debounceMs, p.minChars) := render_effectDeps _ st
    have hdq : (render { p with query := q } st).debouncedQuery =
        st.debouncedQuery := render_debouncedQuery _ st
    have hmain := ih qn q (render { p with query := q } st) hInv1 hdeps1
      hchain.2 helig
    rw [List.cons_append, renders_cons]
    exact ⟨by rw [hmain.1, hdq], hmain.2⟩

/-- C6 counterexample: mount with raw query `"ab"` (`minChars` 2) — a timer
carrying `"ab"` is pending — then one rapid update to `"e"`.  The update
cancels the pending delay and, because `"e"` is non-empty and below
`minChars`, starts no replacement: afterwards no delay is outstanding at all,
so the committed query stays `"ab"` forever and is never updated to the
trimmed value `"e"` of the last update — against the claim that every such
sequence commits exactly once with the last value. -/
theorem debounce_submin_tail_never_commits :
    stateAfterE.pending = [] ∧ stateAfterE.debouncedQuery = "ab" ∧
    jsTrim "e" = "e" ∧ ("ab" : String) ≠ "e" :=
  ⟨by decide, by decide, by decide, by decide⟩

/-- C6 amended: for every sequence of value-changing raw-query updates, each
arriving less than `debounceMs` after the previous one (no timer fires in
between), at most one delay is pending at any time and the committed query is
not changed by the updates themselves; provided the last update trims to the
empty string or to at least `minChars` characters, exactly one (fresh) delay
is pending afterwards, carrying the trimmed value of the last update, and its
firing commits exactly that value and clears both the delay and the flag.  (If
the last update trims to a non-empty sub-`minChars` string, no delay remains
pending and nothing is ever committed.) -/
theorem debounce_coalescing (p : SearchProps T) (q0 : String) (st : HookState T)
    (hr : Reachable st)
    (hdeps : st.effectDeps = some (q0, p.debounceMs, p.minChars))
    (qs : List String) (qn : String)
    (hchain : List.Chain' (fun a b => a ≠ b) (q0 :: qs ++ [qn]))
    (helig : jsTrim qn = "" ∨ p.minChars ≤ (jsTrim qn).length) :
    (∀ n : Nat, (renders p ((qs ++ [qn]).take n) st).pending.length ≤ 1) ∧
    (renders p (qs ++ [qn]) st).debouncedQuery = st.debouncedQuery ∧
    ∃ id, (renders p (qs ++ [qn]) st).pending = [(id, jsTrim qn)] ∧
      (fire id (renders p (qs ++ [qn]) st)).debouncedQuery = jsTrim qn ∧
      (fire id (renders p (qs ++ [qn]) st)).isSearching = false ∧
      (fire id (renders p (qs ++ [qn]) st)).pending = [] := by
  have hInv := reachable_inv hr
  have helig2 : ¬(0 < (jsTrim qn).length ∧ (jsTrim qn).length < p.minChars) := by
    rcases helig with h | h
    · intro hc
      rw [h] at hc
      simp at hc
    · omega
  obtain ⟨hdq, id, hpend⟩ := renders_coalesce p qs qn q0 st hInv hdeps hchain helig2
  have hfire := fire_pending_singleton _ id (jsTrim qn) hpend
  refine ⟨?_, hdq, id, hpend, hfire.1, hfire.2.1, hfire.2.2⟩
  intro n
  exact (renders_inv p ((qs ++ [qn]).take n) st hInv).1

/-- Witness for the amended C6: from the mounted `"ab"` state, updates
`"abc"`, `"abcd"` (all distinct, last committable) leave one pending timer
with `"abcd"`. -/
theorem debounce_coalescing_witness :
    (renders propsAB (["abc"] ++ ["abcd"]) stateAB).debouncedQuery =
      stateAB.debouncedQuery :=
  (debounce_coalescing propsAB "ab" stateAB (Reachable.mount propsAB)
    (by decide) ["abc"] "abcd"
    (List.chain'_cons.mpr ⟨by decide,
      List.chain'_cons.mpr ⟨by decide, List.chain'_singleton _⟩⟩)
    (Or.inr (by decide))).2.1

/-! ## C8: sub-minChars input suspends the controller -/

lemma outputs_congr (searchFn : FuseInst T → String → List (FuseRawResult T))
    (p : SearchProps T) (st1 st2 : HookState T)
    (h1 : st1.fuseVal = st2.fuseVal) (h2 : st1.debouncedQuery = st2.debouncedQuery)
    (h3 : st1.isSearching = st2.isSearching) :
    outputs searchFn p st1 = outputs searchFn p st2 := by
  unfold outputs
  rw [h1, h2, h3]

/-- C8: whenever the raw query trims to a non-empty string shorter than
`minChars`, a render neither starts nor resolves a debounce delay (no fresh
timer id is consumed; any pending entry afterwards was already pending), and
the committed query, the debouncing flag and the entire output (results
included) keep their previous values. -/
theorem submin_suspends (searchFn : FuseInst T → String → List (FuseRawResult T))
    (p : SearchProps T) (st : HookState T) (hr : Reachable st)
    (hfd : st.fuseDeps = some (p.items, p.keys, p.threshold))
    (hq : 0 < (jsTrim p.query).length) (hlt : (jsTrim p.query).length < p.minChars) :
    (render p st).debouncedQuery = st.debouncedQuery ∧
    (render p st).isSearching = st.isSearching ∧
    (render p st).nextId = st.nextId ∧
    (∀ e ∈ (render p st).pending, e ∈ st.pending) ∧
    outputs searchFn p (render p st) = outputs searchFn p st := by
  have hInv := reachable_inv hr
  have hfv : (render p st).fuseVal = st.fuseVal := (render_fuse_skip p st hfd).1
  by_cases hdeps : st.effectDeps = some (p.query, p.debounceMs, p.minChars)
  · have h := render_unchanged p st hdeps
    refine ⟨h.2.1, h.2.2.1, h.2.2.2.1, ?_, ?_⟩
    · intro e he
      rw [h.1] at he
      exact he
    · exact outputs_congr searchFn p _ _ hfv h.2.1 h.2.2.1
  · have h := render_changed_submin p st hInv hdeps ⟨hq, hlt⟩
    refine ⟨h.2.1, h.2.2.1, h.2.2.2.1, ?_, ?_⟩
    · intro e he
      rw [h.1] at he
      cases he
    · exact outputs_congr searchFn p _ _ hfv h.2.1 h.2.2.1

/-- Witness for C8: typing `"e"` over the mounted `"ab"` state leaves the
committed query unchanged. -/
theorem submin_suspends_witness :
    (render { propsAB with query := "e" } stateAB).debouncedQuery =
      stateAB.debouncedQuery :=
  (submin_suspends noSearch { propsAB with query := "e" } stateAB
    (Reachable.mount propsAB) (by decide) (by decide) (by decide)).1

/-! ## C9: the debouncing flag versus pending delays -/

/-- C9 counterexample: `stateAfterE` is reachable (mount with `"ab"`, then
type `"e"`), has NO outstanding timer — the pending delay was cancelled
without replacement — and yet `isSearching` is still `true`: the flag is not
false whenever no timer is outstanding. -/
theorem searching_true_without_timer :
    stateAfterE.pending = [] ∧ stateAfterE.isSearching = true ∧
    Reachable stateAfterE :=
  ⟨by decide, by decide,
    Reachable.render { propsAB with query := "e" } (Reachable.mount propsAB)⟩

/-- C9 amended: in every reachable state, `isSearching` is true whenever a
debounce delay is pending; the converse fails — after a pending delay is
cancelled by a sub-`minChars` input without being replaced, `isSearching`
keeps its previous value and can remain true with no timer outstanding. -/
theorem pending_implies_searching (st : HookState T) (hr : Reachable st) :
    ∀ e ∈ st.pending, st.isSearching = true := by
  have hInv := reachable_inv hr
  intro e he
  exact (hInv.2.2 e he).2.2.2

/-- Witness for the amended C9: the freshly mounted `"ab"` state has the
timer `(1, "ab")` pending and the flag raised. -/
theorem pending_implies_searching_witness : stateAB.isSearching = true :=
  pending_implies_searching stateAB (Reachable.mount propsAB) (1, "ab") (by decide)

/-! ## C10: the initial committed query -/

/-- C10 counterexample: a session mounted with raw query `" ab "` commits
`" ab "` (un-trimmed) immediately, but the text handed to the index is the
TRIMMED `"ab"`, not the un-trimmed text the claim promises. -/
theorem init_query_trimmed_for_search :
    (mount propsPadded).debouncedQuery = " ab " ∧
    searchTextOf (mount propsPadded).debouncedQuery 2 = some "ab" ∧
    some ("ab" : String) ≠ some (" ab " : String) :=
  ⟨by decide, by decide, by decide⟩

/-- C10 amended: at initialization the committed query equals the initial raw
`query` argument exactly as passed — un-trimmed, and without waiting for the
debounce interval — and when its trimmed form is non-empty and at least
`minChars` long the index is queried immediately with that TRIMMED text. -/
theorem init_committed_query (p : SearchProps T)
    (h1 : jsTrim p.query ≠ "") (h2 : p.minChars ≤ (jsTrim p.query).length) :
    (initState p).debouncedQuery = p.query ∧
    (mount p).debouncedQuery = p.query ∧
    searchTextOf (mount p).debouncedQuery p.minChars = some (jsTrim p.query) := by
  have hmq : (mount p).debouncedQuery = p.query := by
    rw [mount, render_debouncedQuery]
    rfl
  refine ⟨rfl, hmq, ?_⟩
  rw [hmq]
  simp only [searchTextOf]
  rw [if_neg h1, if_neg (not_lt.mpr h2)]

/-- Witness for the amended C10 on the mounted `"ab"` session. -/
theorem init_committed_query_witness :
    (mount propsAB).debouncedQuery = propsAB.query :=
  (init_committed_query propsAB (by decide) (by decide)).2.1

/-! ## C5: configuration validation at construction -/

/-- C5 counterexample: with an empty field-weight set AND a non-positive
threshold, construction does not fail and nothing prevents the Match Index
build: mounting succeeds, the instance is built (build count 1) and stores
exactly the given empty keys and zero threshold — no error surfaces, nothing
is defaulted. -/
theorem fuse_build_bad_config_succeeds :
    (mount propsBadConfig).fuseVal = some (mkFuse [] [] 0) ∧
    (mount propsBadConfig).buildCount = 1 ∧
    (mkFuse ([] : List Nat) [] 0).options.keys = [] ∧
    (mkFuse ([] : List Nat) [] 0).options.threshold = 0 :=
  ⟨by decide, by decide, by decide, by decide⟩

/-- C5 amended: building the Match Index never fails: the façade performs no
configuration validation, and for EVERY props — empty key set and
non-positive threshold included — mounting builds the Fuse instance exactly
once, with the supplied keys and threshold passed through unchanged. -/
theorem fuse_build_unvalidated (p : SearchProps T) :
    (mount p).fuseVal = some (mkFuse p.items p.keys p.threshold) ∧
    (mount p).buildCount = 1 := by
  constructor
  · rw [mount, render, runEffect_fuseVal]
    simp only [updateFuse]
    split
    next h => simp [initState] at h
    next => rfl
  · rw [mount, render, runEffect_buildCount]
    simp only [updateFuse]
    split
    next h => simp [initState] at h
    next => rfl

/-! ## C3 and C4: façade result shaping -/

/-- Pointwise characterisation of the per-result flag: for every result the
façade produces, `isFuzzy` holds exactly when its score exceeds the fixed
0.05 cutoff (bypass results carry score 0 and `isFuzzy = false`). -/
lemma mem_fuzzyResultsOf_isFuzzy (searchFn : FuseInst T → String → List (FuseRawResult T))
    (fuse : FuseInst T) (dq : String) (items : List T) (minChars : Nat)
    (r : FuzzyResult T)
    (hr : r ∈ fuzzyResultsOf searchFn fuse dq items minChars) :
    r.isFuzzy = true ↔ FUZZY_CUTOFF < r.score := by
  simp only [fuzzyResultsOf] at hr
  split at hr
  next =>
    obtain ⟨a, _, rfl⟩ := List.mem_map.mp hr
    simp only [Bool.false_eq_true, false_iff, not_lt]
    norm_num [FUZZY_CUTOFF]
  next =>
    split at hr
    next =>
      obtain ⟨a, _, rfl⟩ := List.mem_map.mp hr
      simp only [Bool.false_eq_true, false_iff, not_lt]
      norm_num [FUZZY_CUTOFF]
    next =>
      obtain ⟨a, _, rfl⟩ := List.mem_map.mp hr
      simp [decide_eq_true_eq]

/-- C3: `isFuzzyMode` is true exactly when the committed query trims to at
least `minChars` characters AND at least one produced result has score
strictly greater than the fixed 0.05 cutoff. -/
theorem isFuzzyMode_iff (searchFn : FuseInst T → String → List (FuseRawResult T))
    (fuse : FuseInst T) (dq : String) (items : List T) (minChars : Nat) :
    isFuzzyModeOf dq minChars (fuzzyResultsOf searchFn fuse dq items minChars) = true ↔
      (minChars ≤ (jsTrim dq).length ∧
        ∃ r ∈ fuzzyResultsOf searchFn fuse dq items minChars,
          FUZZY_CUTOFF < r.score) := by
  rw [isFuzzyModeOf]
  simp only [Bool.and_eq_true, decide_eq_true_eq, List.any_eq_true]
  constructor
  · rintro ⟨⟨hlen, _⟩, r, hr, hfz⟩
    exact ⟨hlen, r, hr,
      (mem_fuzzyResultsOf_isFuzzy searchFn fuse dq items minChars r hr).mp hfz⟩
  · rintro ⟨hlen, r, hr, hsc⟩
    exact ⟨⟨hlen, List.length_pos.mpr (List.ne_nil_of_mem hr)⟩, r, hr,
      (mem_fuzzyResultsOf_isFuzzy searchFn fuse dq items minChars r hr).mpr hsc⟩

/-- C4: when the committed query trims to the empty string or to fewer than
`minChars` characters, the façade bypasses the Match Index — no text is
handed to the engine and the result is independent of the engine entirely —
and returns `items` verbatim in order, each wrapped as a zero-score,
match-free, non-fuzzy result. -/
theorem bypass_returns_items (searchFn : FuseInst T → String → List (FuseRawResult T))
    (fuse : FuseInst T) (dq : String) (items : List T) (minChars : Nat)
    (h : jsTrim dq = "" ∨ (jsTrim dq).length < minChars) :
    fuzzyResultsOf searchFn fuse dq items minChars =
      items.map (fun item =>
        { item := item, score := 0, matchList := none, isFuzzy := false }) ∧
    resultsOf searchFn fuse dq items minChars = items ∧
    searchTextOf dq minChars = none ∧
    (∀ searchFn2 : FuseInst T → String → List (FuseRawResult T),
      fuzzyResultsOf searchFn2 fuse dq items minChars =
        fuzzyResultsOf searchFn fuse dq items minChars) := by
  have hfr : ∀ sf : FuseInst T → String → List (FuseRawResult T),
      fuzzyResultsOf sf fuse dq items minChars =
        items.map (fun item =>
          { item := item, score := 0, matchList := none, isFuzzy := false }) := by
    intro sf
    simp only [fuzzyResultsOf]
    by_cases h0 : jsTrim dq = ""
    · rw [if_pos h0]
    · rw [if_neg h0, if_pos (h.resolve_left h0)]
  refine ⟨hfr searchFn, ?_, ?_, fun sf => by rw [hfr sf, hfr searchFn]⟩
  · rw [resultsOf, hfr searchFn, List.map_map]
    show List.map id items = items
    exact List.map_id items
  · simp only [searchTextOf]
    by_cases h0 : jsTrim dq = ""
    · rw [if_pos h0]
    · rw [if_neg h0, if_pos (h.resolve_left h0)]

/-- Witness for C4: a one-letter query over a two-record list returns both
records unranked. -/
theorem bypass_returns_items_witness :
    resultsOf noSearch (mkFuse [7, 9] [] 1) "a" [7, 9] 2 = [7, 9] :=
  (bypass_returns_items noSearch (mkFuse [7, 9] [] 1) "a" [7, 9] 2
    (Or.inr (by decide))).2.1

end SanteCI
